import Mathlib

/-!
Verification of the Terminology Mapping & Translation Engine: the
autocomplete, translate and dual-code-lookup operations of the FHIR
terminology router, together with its helper functions
(calculateRelevanceScore, findMappingsForConcept,
findReverseMappingsForConcept).

Strings are modelled as Lean strings; the JavaScript string operations
used by the code (toLowerCase, includes, startsWith, length, trim,
split) are modelled over the underlying character lists.  Database
queries are modelled as pure functions over an explicit store of
code systems and concept maps.
-/

namespace FhirTerm

/-- JS toLowerCase, as a character list. -/
def lcStr (s : String) : List Char := s.data.map Char.toLower

/-- JS String.prototype.includes: true iff the second list occurs as a
contiguous substring of the first. -/
def jsIncludes : List Char → List Char → Bool
  | [], sub => sub.isPrefixOf ([] : List Char)
  | a :: t, sub => sub.isPrefixOf (a :: t) || jsIncludes t sub

/-- A language-tagged alternate text of a concept. -/
structure Designation where
  language : String
  value : String
  use : Option String
deriving DecidableEq, Repr

/-- A concept row of a code system. -/
structure Concept where
  code : String
  display : Option String
  definition : Option String
  designations : List Designation
deriving DecidableEq, Repr

/-- A code system row together with its concepts. -/
structure CodeSystem where
  url : String
  name : String
  title : Option String
  concepts : List Concept
deriving DecidableEq, Repr

/-- A target edge of a concept-map element. -/
structure MapTarget where
  code : String
  display : Option String
  equivalence : String
  comment : Option String
deriving DecidableEq, Repr

/-- A source-side element of a concept-map group. -/
structure MapElement where
  code : String
  display : Option String
  targets : List MapTarget
deriving DecidableEq, Repr

/-- A group of a concept map. -/
structure MapGroup where
  source : Option String
  target : Option String
  elements : List MapElement
deriving DecidableEq, Repr

/-- A concept map row together with its group tree. -/
structure ConceptMap where
  url : String
  sourceUri : String
  targetUri : String
  groups : List MapGroup
deriving DecidableEq, Repr

/-- The database contents the terminology router reads. -/
structure Store where
  codeSystems : List CodeSystem
  conceptMaps : List ConceptMap
deriving DecidableEq, Repr

/-- Embeds calculateRelevanceScore: cumulative relevance of a concept
for a search term.  Empty display and definition strings are skipped
because the JS code guards them with a truthiness test. -/
def calculateRelevanceScore (concept : Concept) (searchTerm : String) : Int :=
  let term := lcStr searchTerm
  let score : Int := 0
  let score :=
    if lcStr concept.code = term then score + 100
    else if jsIncludes (lcStr concept.code) term then score + 50
    else score
  let score :=
    match concept.display with
    | some dsp =>
      if dsp = "" then score
      else
        let display := lcStr dsp
        if display = term then score + 90
        else if term.isPrefixOf display then score + 70
        else if jsIncludes display term then score + 40
        else score
    | none => score
  let score :=
    match concept.definition with
    | some dfn =>
      if dfn = "" then score
      else if jsIncludes (lcStr dfn) term then score + 20
      else score
    | none => score
  concept.designations.foldl (fun sc d =>
    let v := lcStr d.value
    if v = term then sc + 60
    else if jsIncludes v term then sc + 30
    else sc) score

/-- Score contribution of the code field. -/
def codeScore (code term : List Char) : Int :=
  if code = term then 100 else if jsIncludes code term then 50 else 0

/-- Score contribution of the display field (with the truthiness skip
of the empty string). -/
def displayScore (display : Option String) (term : List Char) : Int :=
  match display with
  | none => 0
  | some dsp =>
    if dsp = "" then 0
    else
      let dl := lcStr dsp
      if dl = term then 90
      else if term.isPrefixOf dl then 70
      else if jsIncludes dl term then 40
      else 0

/-- Score contribution of the definition field (with the truthiness
skip of the empty string). -/
def definitionScore (definition : Option String) (term : List Char) : Int :=
  match definition with
  | none => 0
  | some dfn =>
    if dfn = "" then 0
    else if jsIncludes (lcStr dfn) term then 20
    else 0

/-- Score contribution of a single designation. -/
def designationScore (d : Designation) (term : List Char) : Int :=
  let v := lcStr d.value
  if v = term then 60 else if jsIncludes v term then 30 else 0

lemma designation_foldl_eq (term : List Char) (l : List Designation) (init : Int) :
    l.foldl (fun sc d =>
      let v := lcStr d.value
      if v = term then sc + 60
      else if jsIncludes v term then sc + 30
      else sc) init
      = init + (l.map (fun d => designationScore d term)).sum := by
  induction l generalizing init with
  | nil => simp
  | cons d rest ih =>
    simp only [List.foldl_cons, List.map_cons, List.sum_cons, ih, designationScore]
    split <;> [skip; split] <;> ring

set_option maxHeartbeats 1000000 in
/-- The scorer is the sum of its four per-field contributions. -/
lemma score_decompose (c : Concept) (t : String) :
    calculateRelevanceScore c t
      = codeScore (lcStr c.code) (lcStr t)
        + displayScore c.display (lcStr t)
        + definitionScore c.definition (lcStr t)
        + (c.designations.map (fun d => designationScore d (lcStr t))).sum := by
  obtain ⟨code, display, definition, desigs⟩ := c
  cases display <;> cases definition <;>
    simp only [calculateRelevanceScore, codeScore, displayScore, definitionScore,
      designation_foldl_eq] <;>
    split_ifs <;> ring

lemma jsIncludes_iff (s sub : List Char) : jsIncludes s sub = true ↔ sub <:+: s := by
  induction s with
  | nil =>
    simp only [jsIncludes]
    rw [ List.isPrefixOf_iff_prefix]
    simp [ List.prefix_nil, List.infix_nil]
  | cons a t ih =>
    simp only [jsIncludes, Bool.or_eq_true, ih]
    rw [ List.isPrefixOf_iff_prefix, List.infix_cons_iff]

lemma jsIncludes_empty_term (s : List Char) : jsIncludes s [] = true := by
  rw [jsIncludes_iff]
  exact List.nil_infix

lemma jsIncludes_empty_str (sub : List Char) (h : sub ≠ []) :
    jsIncludes [] sub = false := by
  rw [Bool.eq_false_iff]
  intro hc
  exact h (List.infix_nil.mp ((jsIncludes_iff [] sub).mp hc))

lemma jsIncludes_self (s : List Char) : jsIncludes s s = true := by
  simp [jsIncludes_iff]

lemma isPrefixOf_jsIncludes (s sub : List Char) (h : sub.isPrefixOf s = true) :
    jsIncludes s sub = true := by
  rw [jsIncludes_iff]
  exact List.IsPrefix.isInfix (( List.isPrefixOf_iff_prefix).mp h)

lemma codeScore_nonneg (code term : List Char) : 0 ≤ codeScore code term := by
  unfold codeScore; split_ifs <;> omega

lemma displayScore_nonneg (display : Option String) (term : List Char) :
    0 ≤ displayScore display term := by
  cases display with
  | none => exact le_refl 0
  | some dsp => simp only [displayScore]; split_ifs <;> omega

lemma definitionScore_nonneg (definition : Option String) (term : List Char) :
    0 ≤ definitionScore definition term := by
  cases definition with
  | none => exact le_refl 0
  | some dfn => simp only [definitionScore]; split_ifs <;> omega

lemma designationScore_nonneg (d : Designation) (term : List Char) :
    0 ≤ designationScore d term := by
  unfold designationScore; dsimp only; split_ifs <;> omega

lemma designationSum_nonneg (l : List Designation) (term : List Char) :
    0 ≤ (l.map (fun d => designationScore d term)).sum := by
  refine List.sum_nonneg ?_
  intro x hx
  obtain ⟨d, _, rfl⟩ := List.mem_map.mp hx
  exact designationScore_nonneg d term

lemma codeScore_eq_zero (code term : List Char) :
    codeScore code term = 0 ↔ jsIncludes code term = false := by
  unfold codeScore
  constructor
  · intro h
    split_ifs at h
    · omega
    · omega
    · rwa [Bool.eq_false_iff]
  · intro h
    have hne : ¬ code = term := by
      rintro rfl
      rw [jsIncludes_self] at h
      exact Bool.noConfusion h
    rw [if_neg hne, if_neg (by simp [h])]

lemma term_ne_nil_of_not_included (code term : List Char)
    (h : jsIncludes code term = false) : term ≠ [] := by
  rintro rfl
  rw [jsIncludes_empty_term] at h
  exact Bool.noConfusion h

/-- True iff an optional string field contains the term as a
case-insensitive substring. -/
def fieldContainsTerm (f : Option String) (term : List Char) : Bool :=
  match f with
  | some s => jsIncludes (lcStr s) term
  | none => false

lemma displayScore_eq_zero (display : Option String) (term : List Char)
    (hterm : term ≠ []) :
    displayScore display term = 0 ↔ fieldContainsTerm display term = false := by
  unfold displayScore fieldContainsTerm
  cases display with
  | none => simp
  | some dsp =>
    simp only
    by_cases hd : dsp = ""
    · subst hd
      simp only [if_pos rfl]
      have : lcStr "" = [] := rfl
      rw [this, jsIncludes_empty_str term hterm]
      simp
    · rw [if_neg hd]
      constructor
      · intro h
        split_ifs at h with h1 h2 h3
        · omega
        · omega
        · omega
        · rwa [Bool.eq_false_iff]
      · intro h
        have hne : ¬ lcStr dsp = term := by
          rintro rfl
          rw [jsIncludes_self] at h
          exact Bool.noConfusion h
        have hnp : ¬ term.isPrefixOf (lcStr dsp) = true := by
          intro hp
          rw [isPrefixOf_jsIncludes _ _ hp] at h
          exact Bool.noConfusion h
        rw [if_neg hne, if_neg hnp, if_neg (by simp [h])]

lemma definitionScore_eq_zero (definition : Option String) (term : List Char)
    (hterm : term ≠ []) :
    definitionScore definition term = 0 ↔
      fieldContainsTerm definition term = false := by
  unfold definitionScore fieldContainsTerm
  cases definition with
  | none => simp
  | some dfn =>
    simp only
    by_cases hd : dfn = ""
    · subst hd
      simp only [if_pos rfl]
      have : lcStr "" = [] := rfl
      rw [this, jsIncludes_empty_str term hterm]
      simp
    · rw [if_neg hd]
      split_ifs with h
      · simp [h]
      · simpa using h

lemma designationScore_eq_zero (d : Designation) (term : List Char) :
    designationScore d term = 0 ↔ jsIncludes (lcStr d.value) term = false := by
  unfold designationScore
  simp only
  constructor
  · intro h
    split_ifs at h
    · omega
    · omega
    · rwa [Bool.eq_false_iff]
  · intro h
    have hne : ¬ lcStr d.value = term := by
      rintro rfl
      rw [jsIncludes_self] at h
      exact Bool.noConfusion h
    rw [if_neg hne, if_neg (by simp [h])]

lemma designationSum_eq_zero (l : List Designation) (term : List Char) :
    (l.map (fun d => designationScore d term)).sum = 0 ↔
      ∀ d ∈ l, designationScore d term = 0 := by
  induction l with
  | nil => simp
  | cons d rest ih =>
    simp only [List.map_cons, List.sum_cons, List.mem_cons]
    constructor
    · intro h
      have h1 := designationScore_nonneg d term
      have h2 := designationSum_nonneg rest term
      have hd : designationScore d term = 0 := by omega
      have hr : (rest.map (fun x => designationScore x term)).sum = 0 := by omega
      exact fun x hx => hx.elim (fun he => he ▸ hd) (fun hm => (ih.mp hr) x hm)
    · intro h
      rw [h d (Or.inl rfl), ih.mpr (fun x hx => h x (Or.inr hx))]
      ring

lemma isPrefixOf_nil_false (term : List Char) (h : term ≠ []) :
    term.isPrefixOf ([] : List Char) = false := by
  rw [Bool.eq_false_iff]
  intro hc
  exact h ( List.prefix_nil.mp (( List.isPrefixOf_iff_prefix).mp hc))

lemma lcStr_ne_nil (t : String) (h : t ≠ "") : lcStr t ≠ [] := by
  intro hc
  apply h
  unfold lcStr at hc
  rcases t with ⟨data⟩
  cases data with
  | nil => rfl
  | cons a l => exact absurd hc (by simp)

/-- Relevance score written exactly as the specification states it: a
sum of code, display, definition and designation contributions, with no
special treatment of empty fields. -/
def specRelevanceScore (c : Concept) (t : String) : Int :=
  let term := lcStr t
  (if lcStr c.code = term then (100 : Int)
   else if jsIncludes (lcStr c.code) term then 50 else 0)
  + (match c.display with
     | none => (0 : Int)
     | some dsp =>
       let dl := lcStr dsp
       if dl = term then 90
       else if term.isPrefixOf dl then 70
       else if jsIncludes dl term then 40
       else 0)
  + (match c.definition with
     | none => (0 : Int)
     | some dfn => if jsIncludes (lcStr dfn) term then 20 else 0)
  + (c.designations.map (fun d =>
       let v := lcStr d.value
       if v = term then (60 : Int)
       else if jsIncludes v term then 30
       else 0)).sum

lemma displaySpec_eq (display : Option String) (term : List Char)
    (hterm : term ≠ []) :
    (match display with
     | none => (0 : Int)
     | some dsp =>
       let dl := lcStr dsp
       if dl = term then 90
       else if term.isPrefixOf dl then 70
       else if jsIncludes dl term then 40
       else 0)
    = displayScore display term := by
  cases display with
  | none => rfl
  | some dsp =>
    dsimp only
    by_cases hd : dsp = ""
    · subst hd
      have h0 : lcStr "" = [] := rfl
      simp only [displayScore, if_pos rfl, h0]
      rw [if_neg (fun he => hterm he.symm),
        isPrefixOf_nil_false term hterm,
        jsIncludes_empty_str term hterm]
      simp
    · simp only [displayScore, if_neg hd]

lemma definitionSpec_eq (definition : Option String) (term : List Char)
    (hterm : term ≠ []) :
    (match definition with
     | none => (0 : Int)
     | some dfn => if jsIncludes (lcStr dfn) term then 20 else 0)
    = definitionScore definition term := by
  cases definition with
  | none => rfl
  | some dfn =>
    dsimp only
    by_cases hd : dfn = ""
    · subst hd
      have h0 : lcStr "" = [] := rfl
      simp only [definitionScore, if_pos rfl, h0]
      rw [jsIncludes_empty_str term hterm]
      simp
    · simp only [definitionScore, if_neg hd]

/-- C6: the relevance score is never negative, and it is zero exactly
when none of the code, display, definition or designation values of the
concept contain the search term as a case-insensitive substring. -/
theorem score_nonneg_and_zero_iff_no_match (c : Concept) (t : String) :
    0 ≤ calculateRelevanceScore c t ∧
    (calculateRelevanceScore c t = 0 ↔
      jsIncludes (lcStr c.code) (lcStr t) = false ∧
      fieldContainsTerm c.display (lcStr t) = false ∧
      fieldContainsTerm c.definition (lcStr t) = false ∧
      ∀ d ∈ c.designations, jsIncludes (lcStr d.value) (lcStr t) = false) := by
  have h1 := codeScore_nonneg (lcStr c.code) (lcStr t)
  have h2 := displayScore_nonneg c.display (lcStr t)
  have h3 := definitionScore_nonneg c.definition (lcStr t)
  have h4 := designationSum_nonneg c.designations (lcStr t)
  rw [score_decompose]
  refine ⟨by omega, ?_, ?_⟩
  · intro h
    have hc : codeScore (lcStr c.code) (lcStr t) = 0 := by omega
    have hdz : displayScore c.display (lcStr t) = 0 := by omega
    have hfz : definitionScore c.definition (lcStr t) = 0 := by omega
    have hsz : (c.designations.map (fun d => designationScore d (lcStr t))).sum = 0 := by
      omega
    have hcode := (codeScore_eq_zero _ _).mp hc
    have hterm := term_ne_nil_of_not_included _ _ hcode
    refine ⟨hcode, (displayScore_eq_zero _ _ hterm).mp hdz,
      (definitionScore_eq_zero _ _ hterm).mp hfz, ?_⟩
    intro d hd
    exact (designationScore_eq_zero d _).mp ((designationSum_eq_zero _ _).mp hsz d hd)
  · rintro ⟨hc, hd, hf, hs⟩
    have hterm : lcStr t ≠ [] := term_ne_nil_of_not_included _ _ hc
    rw [(codeScore_eq_zero _ _).mpr hc, (displayScore_eq_zero _ _ hterm).mpr hd,
      (definitionScore_eq_zero _ _ hterm).mpr hf,
      (designationSum_eq_zero _ _).mpr
        (fun d hdm => (designationScore_eq_zero d _).mpr (hs d hdm))]
    ring

/-- C5 counterexample: for the empty search term and a concept with an
empty display, the implementation skips the display field (JS
truthiness), while the claimed formula awards the +90 exact-match
bonus; the two values differ. -/
theorem score_formula_counterexample :
    calculateRelevanceScore
        { code := "x", display := some "", definition := none, designations := [] } ""
      ≠ specRelevanceScore
        { code := "x", display := some "", definition := none, designations := [] } "" := by
  decide

/-- C5 amended: for every concept and every non-empty search term, the
implemented score equals the specified cumulative formula (the two can
differ only at the empty term, where the implementation skips empty
display/definition fields). -/
theorem score_matches_spec_formula (c : Concept) (t : String) (h : t ≠ "") :
    calculateRelevanceScore c t = specRelevanceScore c t := by
  have hterm : lcStr t ≠ [] := lcStr_ne_nil t h
  rw [score_decompose]
  unfold specRelevanceScore
  dsimp only
  rw [displaySpec_eq c.display (lcStr t) hterm,
    definitionSpec_eq c.definition (lcStr t) hterm]
  unfold codeScore designationScore
  rfl

/-- Witness for the amended C5 theorem at a concrete concept and term. -/
theorem score_matches_spec_formula_witness :
    calculateRelevanceScore
        { code := "N001", display := some "Fever", definition := none,
          designations := [] } "fever"
      = specRelevanceScore
        { code := "N001", display := some "Fever", definition := none,
          designations := [] } "fever" :=
  score_matches_spec_formula _ _ (by decide)

/-- A forward mapping edge as assembled by findMappingsForConcept. -/
structure Mapping where
  targetSystem : String
  targetCode : String
  targetDisplay : Option String
  equivalence : String
  comment : Option String
deriving DecidableEq, Repr

/-- A synthesized reverse mapping edge as assembled by
findReverseMappingsForConcept. -/
structure ReverseMapping where
  sourceSystem : String
  sourceCode : String
  sourceDisplay : Option String
  equivalence : String
deriving DecidableEq, Repr

/-- Truthiness of an optional JS string: null/undefined and the empty
string are falsy. -/
def jsTruthyStr : Option String → Bool
  | none => false
  | some s => !(s == "")

/-- The where-filter of findMappingsForConcept on a concept map:
sourceUri equals the requested system and, when a truthy target system
is supplied, targetUri equals it (a falsy target system spreads no
constraint). -/
def mapMatchesForward (system : String) (targetSystem : Option String)
    (cm : ConceptMap) : Bool :=
  cm.sourceUri == system &&
    (match targetSystem with
     | none => true
     | some t => t == "" || cm.targetUri == t)

/-- The forward edge pushed for one target of one concept map. -/
def forwardEdge (cm : ConceptMap) (target : MapTarget) : Mapping :=
  { targetSystem := cm.targetUri
    targetCode := target.code
    targetDisplay := target.display
    equivalence := target.equivalence
    comment := target.comment }

/-- Embeds findMappingsForConcept: every target of every element whose
code matches, across every group of every matching concept map. -/
def findMappingsForConcept (maps : List ConceptMap) (code system : String)
    (targetSystem : Option String) : List Mapping :=
  (maps.filter (mapMatchesForward system targetSystem)).flatMap (fun conceptMap =>
    conceptMap.groups.flatMap (fun group =>
      (group.elements.filter (fun e => e.code == code)).flatMap (fun element =>
        element.targets.map (fun target => forwardEdge conceptMap target))))

/-- The reverse edge pushed for one element (using the first matching
target), or nothing when no target of the element matches. -/
def reverseEdgeOfElement (cm : ConceptMap) (code : String)
    (e : MapElement) : List ReverseMapping :=
  match e.targets.filter (fun t => t.code == code) with
  | [] => []
  | t :: _ =>
    [{ sourceSystem := cm.sourceUri
       sourceCode := e.code
       sourceDisplay := e.display
       equivalence := t.equivalence }]

/-- Embeds findReverseMappingsForConcept: for every element of every
group of every concept map whose targetUri matches, one synthesized
reverse edge when the element owns at least one matching target. -/
def findReverseMappingsForConcept (maps : List ConceptMap)
    (code system : String) : List ReverseMapping :=
  (maps.filter (fun cm => cm.targetUri == system)).flatMap (fun conceptMap =>
    conceptMap.groups.flatMap (fun group =>
      group.elements.flatMap (fun element =>
        reverseEdgeOfElement conceptMap code element)))

/-- C8: forward lookup returns one edge for every target of every
matching element across every matching group and concept map, and its
length is the total count of such targets (the traversal never stops at
a first match). -/
theorem forward_translate_collects_all_edges
    (maps : List ConceptMap) (code system : String) (ts : Option String)
    (m : Mapping) :
    (m ∈ findMappingsForConcept maps code system ts ↔
      ∃ cm ∈ maps, mapMatchesForward system ts cm = true ∧
        ∃ g ∈ cm.groups, ∃ e ∈ g.elements, e.code = code ∧
          ∃ target ∈ e.targets, m = forwardEdge cm target) ∧
    (findMappingsForConcept maps code system ts).length =
      ((maps.filter (mapMatchesForward system ts)).map (fun cm =>
        (cm.groups.map (fun g =>
          ((g.elements.filter (fun e => e.code == code)).map
            (fun e => e.targets.length)).sum)).sum)).sum := by
  constructor
  · simp only [findMappingsForConcept, List.mem_flatMap, List.mem_filter,
      List.mem_map, beq_iff_eq]
    constructor
    · rintro ⟨cm, ⟨hcm, hmatch⟩, g, hg, e, ⟨he, hcode⟩, target, ht, rfl⟩
      exact ⟨cm, hcm, hmatch, g, hg, e, he, hcode, target, ht, rfl⟩
    · rintro ⟨cm, hcm, hmatch, g, hg, e, he, hcode, target, ht, rfl⟩
      exact ⟨cm, ⟨hcm, hmatch⟩, g, hg, e, ⟨he, hcode⟩, target, ht, rfl⟩
  · simp [findMappingsForConcept, List.length_flatMap, List.map_map,
      Function.comp_def, List.length_map]

lemma sum_length_reverseEdge (cm : ConceptMap) (code : String)
    (elements : List MapElement) :
    (elements.map (fun e => (reverseEdgeOfElement cm code e).length)).sum =
      (elements.filter (fun e =>
        !(e.targets.filter (fun t => t.code == code)).isEmpty)).length := by
  induction elements with
  | nil => rfl
  | cons e rest ih =>
    simp only [List.map_cons, List.sum_cons, ih, List.filter_cons]
    unfold reverseEdgeOfElement
    cases hf : e.targets.filter (fun t => t.code == code) <;>
      simp [hf, Nat.add_comm]

lemma mem_reverseEdgeOfElement (cm : ConceptMap) (code : String)
    (e : MapElement) (m : ReverseMapping) :
    m ∈ reverseEdgeOfElement cm code e ↔
      ∃ t rest, e.targets.filter (fun t0 => t0.code == code) = t :: rest ∧
        m = { sourceSystem := cm.sourceUri, sourceCode := e.code,
              sourceDisplay := e.display, equivalence := t.equivalence } := by
  unfold reverseEdgeOfElement
  cases hf : e.targets.filter (fun t0 => t0.code == code) with
  | nil => simp
  | cons t rest => simp [List.cons.injEq]

/-- C9: reverse lookup synthesizes exactly one edge per element owning
at least one matching target, carrying the equivalence of the first
matching target of that element. -/
theorem reverse_translate_first_target_per_element
    (maps : List ConceptMap) (code system : String) (m : ReverseMapping) :
    (m ∈ findReverseMappingsForConcept maps code system ↔
      ∃ cm ∈ maps, cm.targetUri = system ∧
        ∃ g ∈ cm.groups, ∃ e ∈ g.elements,
          ∃ t rest, e.targets.filter (fun t0 => t0.code == code) = t :: rest ∧
            m = { sourceSystem := cm.sourceUri, sourceCode := e.code,
                  sourceDisplay := e.display, equivalence := t.equivalence }) ∧
    (findReverseMappingsForConcept maps code system).length =
      ((maps.filter (fun cm => cm.targetUri == system)).map (fun cm =>
        (cm.groups.map (fun g =>
          (g.elements.filter (fun e =>
            !(e.targets.filter (fun t => t.code == code)).isEmpty)).length)).sum)).sum := by
  constructor
  · simp only [findReverseMappingsForConcept, List.mem_flatMap, List.mem_filter,
      beq_iff_eq, mem_reverseEdgeOfElement]
    constructor
    · rintro ⟨cm, ⟨hcm, hmatch⟩, g, hg, e, he, t, rest, hf, rfl⟩
      exact ⟨cm, hcm, hmatch, g, hg, e, he, t, rest, hf, rfl⟩
    · rintro ⟨cm, hcm, hmatch, g, hg, e, he, t, rest, hf, rfl⟩
      exact ⟨cm, ⟨hcm, hmatch⟩, g, hg, e, he, t, rest, hf, rfl⟩
  · simp [findReverseMappingsForConcept, List.length_flatMap,
      List.map_map, Function.comp_def, sum_length_reverseEdge]

/-- JS single-character String.prototype.split. -/
def splitOnChar (sep : Char) : List Char → List (List Char)
  | [] => [[]]
  | a :: t =>
    if a = sep then [] :: splitOnChar sep t
    else
      match splitOnChar sep t with
      | [] => [[a]]
      | h :: r => (a :: h) :: r

/-- JS String.prototype.trim on a character list. -/
def jsTrim (l : List Char) : List Char :=
  ((l.dropWhile Char.isWhitespace).reverse.dropWhile Char.isWhitespace).reverse

/-- The systemUrls alias table of the autocomplete route. -/
def systemUrlFor (key : List Char) : Option String :=
  if key = "namaste".data then some "https://ayush.gov.in/fhir/CodeSystem/namaste"
  else if key = "unani".data then some "https://ayush.gov.in/fhir/CodeSystem/unani"
  else if key = "icd11-tm2".data then some "http://id.who.int/icd/release/11/mms"
  else if key = "icd11".data then some "https://icd.who.int/browse11/l-m/en"
  else none

/-- The systemsToSearch parse: split on commas, trim, lowercase. -/
def parseSystemKeys (systems : String) : List (List Char) :=
  (splitOnChar ',' systems.data).map (fun s => (jsTrim s).map Char.toLower)

/-- A parsed autocomplete request. -/
structure AutoQuery where
  search : String
  system : Option String
  limit : Nat
  includeDesignations : Bool
  includeMappings : Bool
  systems : String
deriving DecidableEq, Repr

/-- The where-filter of the per-system concept query: code, display,
definition or (when enabled) some designation value contains the search
term case-insensitively. -/
def conceptMatchesSearch (includeDesignations : Bool) (search : String)
    (c : Concept) : Bool :=
  jsIncludes (lcStr c.code) (lcStr search) ||
  (match c.display with
   | some d => jsIncludes (lcStr d) (lcStr search)
   | none => false) ||
  (match c.definition with
   | some d => jsIncludes (lcStr d) (lcStr search)
   | none => false) ||
  (includeDesignations &&
    c.designations.any (fun d => jsIncludes (lcStr d.value) (lcStr search)))

/-- Codepoint-lexicographic comparison of character lists (the model of
the database text ordering). -/
def charListLt : List Char → List Char → Bool
  | [], [] => false
  | [], _ :: _ => true
  | _ :: _, [] => false
  | a :: as, b :: bs =>
    if a < b then true else if b < a then false else charListLt as bs

/-- Database orderBy key comparison: display ascending with nulls
last, then code ascending. -/
def conceptDbLt (a b : Concept) : Bool :=
  (match a.display, b.display with
   | some x, some y => charListLt x.data y.data
   | some _, none => true
   | none, some _ => false
   | none, none => false) ||
  (a.display == b.display && charListLt a.code.data b.code.data)

/-- Stable insertion: keeps every existing element y with lt y x in
front of x, so equal elements retain first-seen order. -/
def stableInsert (lt : α → α → Bool) (x : α) : List α → List α
  | [] => [x]
  | y :: ys => if lt y x then y :: stableInsert lt x ys else x :: y :: ys

/-- Stable sort by the strict comparison lt (the model of both the
database orderBy and the stable JS Array.prototype.sort). -/
def stableSortBy (lt : α → α → Bool) (l : List α) : List α :=
  l.foldr (stableInsert lt) []

/-- Per-system concept query of the autocomplete route: filter, order,
then take at most min(limit, 50) rows. -/
def queryConcepts (cs : CodeSystem) (q : AutoQuery) : List Concept :=
  (stableSortBy conceptDbLt
    (cs.concepts.filter (conceptMatchesSearch q.includeDesignations q.search))).take
    (min q.limit 50)

/-- One merged autocomplete result row. -/
structure AutoResult where
  system : String
  systemName : String
  code : String
  display : Option String
  definition : Option String
  score : Int
  terminology : String
  designations : Option (List Designation)
  mappings : Option (List Mapping)
deriving DecidableEq, Repr

/-- Builds the result object pushed for one retrieved concept. -/
def mkAutoResult (store : Store) (q : AutoQuery) (cs : CodeSystem)
    (key : List Char) (concept : Concept) : AutoResult :=
  { system := cs.url
    systemName := cs.name
    code := concept.code
    display := concept.display
    definition := concept.definition
    score := calculateRelevanceScore concept q.search
    terminology := String.mk (key.map Char.toUpper)
    designations :=
      if q.includeDesignations && !concept.designations.isEmpty then
        some concept.designations
      else none
    mappings :=
      if q.includeMappings then
        let mappings := findMappingsForConcept store.conceptMaps concept.code cs.url none
        if !mappings.isEmpty then some mappings else none
      else none }

/-- One loop iteration of the autocomplete route: resolve the alias,
skip unknown aliases and non-requested systems, query the code system
and build the result rows. -/
def perSystemResults (store : Store) (q : AutoQuery) (key : List Char) :
    List AutoResult :=
  match systemUrlFor key with
  | none => []
  | some url =>
    let skip :=
      match q.system with
      | some s => !(s == "") && !(s == url)
      | none => false
    if skip then []
    else
      match store.codeSystems.find? (fun cs => cs.url == url) with
      | none => []
      | some cs => (queryConcepts cs q).map (mkAutoResult store q cs key)

/-- The merged pre-sort result list of the autocomplete route, in
per-system enumeration order with systems in requested order. -/
def autocompleteMatches (store : Store) (q : AutoQuery) : List AutoResult :=
  (parseSystemKeys q.systems).flatMap (perSystemResults store q)

/-- The JS sort comparator (a, b) => b.score - a.score as a strict
keeps-before test: an existing element stays in front of the inserted
one exactly when its score is strictly larger. -/
def scoreBefore (a b : AutoResult) : Bool := b.score < a.score

/-- The final autocomplete result list: stable sort by non-increasing
score, then global truncation with the unclamped limit. -/
def autocompleteLimited (store : Store) (q : AutoQuery) : List AutoResult :=
  (stableSortBy scoreBefore (autocompleteMatches store q)).take q.limit

/-- The autocomplete request handler, including the search-term guard
(no trimming is applied before the length test). -/
def autocomplete (store : Store) (search : Option String)
    (system : Option String) (limit : Nat)
    (includeDesignations includeMappings : Bool) (systems : String) :
    Except String (List AutoResult) :=
  match search with
  | none => .error "search parameter must be at least 2 characters"
  | some s =>
    if s.length < 2 then .error "search parameter must be at least 2 characters"
    else
      .ok (autocompleteLimited store
        { search := s, system := system, limit := limit
          includeDesignations := includeDesignations
          includeMappings := includeMappings, systems := systems })

lemma stableInsert_head (lt : α → α → Bool) (x : α) (l : List α) :
    (stableInsert lt x l).head? = some x ∨ (stableInsert lt x l).head? = l.head? := by
  cases l with
  | nil => left; rfl
  | cons y ys =>
    rw [stableInsert]
    by_cases hc : lt y x = true
    · right; rw [if_pos hc]; rfl
    · left; rw [if_neg hc]; rfl

lemma stableInsert_chain (x : AutoResult) (l : List AutoResult)
    (h : List.Chain' (fun a b => b.score ≤ a.score) l) :
    List.Chain' (fun a b => b.score ≤ a.score) (stableInsert scoreBefore x l) := by
  induction l with
  | nil => simp [stableInsert]
  | cons y ys ih =>
    rw [stableInsert]
    by_cases hc : scoreBefore y x = true
    · rw [if_pos hc]
      refine List.chain'_cons'.mpr ⟨?_, ih h.tail⟩
      intro b hb
      rcases stableInsert_head scoreBefore x ys with hh | hh
      · rw [hh] at hb
        have hbx : x = b := by simpa using hb
        subst hbx
        have : x.score < y.score := by
          simpa [scoreBefore] using hc
        omega
      · rw [hh] at hb
        exact (List.chain'_cons'.mp h).1 b hb
    · rw [if_neg hc]
      refine List.chain'_cons.mpr ⟨?_, h⟩
      have : ¬ x.score < y.score := by
        simpa [scoreBefore] using hc
      omega

lemma stableSortBy_chain (l : List AutoResult) :
    List.Chain' (fun a b => b.score ≤ a.score) (stableSortBy scoreBefore l) := by
  induction l with
  | nil => simp [stableSortBy]
  | cons x xs ih => exact stableInsert_chain x _ ih

lemma stableInsert_filter_score (x : AutoResult) (l : List AutoResult) (s : Int) :
    (stableInsert scoreBefore x l).filter (fun r => r.score == s) =
      if x.score == s then x :: l.filter (fun r => r.score == s)
      else l.filter (fun r => r.score == s) := by
  induction l with
  | nil =>
    rw [stableInsert]
    by_cases hx : (x.score == s) = true <;> simp [hx]
  | cons y ys ih =>
    rw [stableInsert]
    by_cases hc : scoreBefore y x = true
    · rw [if_pos hc, List.filter_cons, List.filter_cons, ih]
      by_cases hy : (y.score == s) = true
      · have hlt : x.score < y.score := by
          simpa [scoreBefore] using hc
        have hx : (x.score == s) = false := by
          rw [beq_iff_eq] at hy
          rw [beq_eq_false_iff_ne]
          omega
        simp [hx, hy]
      · by_cases hx : (x.score == s) = true
        all_goals simp only [hx, hy, if_pos, if_neg, Bool.false_eq_true,
          ite_false, ite_true, List.filter_cons]
    · rw [if_neg hc, List.filter_cons, List.filter_cons]

lemma stableSortBy_filter_score (l : List AutoResult) (s : Int) :
    (stableSortBy scoreBefore l).filter (fun r => r.score == s) =
      l.filter (fun r => r.score == s) := by
  induction l with
  | nil => rfl
  | cons x xs ih =>
    have hstep : stableSortBy scoreBefore (x :: xs)
        = stableInsert scoreBefore x (stableSortBy scoreBefore xs) := rfl
    rw [hstep, stableInsert_filter_score, ih, List.filter_cons]

/-- C7: the returned autocomplete list is sorted by non-increasing
score, and for every score value the returned rows with that score form
a prefix of the pre-sort merged rows with that score: equal-score rows
keep their first-enumerated relative order (the sort is stable). -/
theorem autocomplete_sorted_and_stable (store : Store) (q : AutoQuery) :
    List.Chain' (fun a b => b.score ≤ a.score) (autocompleteLimited store q) ∧
    ∀ s : Int,
      (autocompleteLimited store q).filter (fun r => r.score == s) <+:
        (autocompleteMatches store q).filter (fun r => r.score == s) := by
  constructor
  · exact (stableSortBy_chain (autocompleteMatches store q)).take q.limit
  · intro s
    have hpre := List.take_prefix q.limit (stableSortBy scoreBefore (autocompleteMatches store q))
    have hfil := hpre.filter (fun r => r.score == s)
    rw [stableSortBy_filter_score] at hfil
    exact hfil

lemma perSystemResults_length_le (store : Store) (q : AutoQuery)
    (key : List Char) : (perSystemResults store q key).length ≤ 50 := by
  unfold perSystemResults
  cases systemUrlFor key with
  | none => simp
  | some url =>
    dsimp only
    split
    · simp
    · cases store.codeSystems.find? (fun cs => cs.url == url) with
      | none => simp
      | some cs =>
        simp only [List.length_map]
        unfold queryConcepts
        have h := (stableSortBy conceptDbLt
          (cs.concepts.filter
            (conceptMatchesSearch q.includeDesignations q.search))).length_take_le
          (min q.limit 50)
        omega

/-- C3 amended: the number of returned autocomplete matches never
exceeds the requested limit, and the merged pre-sort list is bounded by
50 rows per requested system alias; the global truncation, however,
uses the unclamped limit, so more than 50 rows are possible when the
limit exceeds 50 and several systems match. -/
theorem autocomplete_length_bounds (store : Store) (q : AutoQuery) :
    (autocompleteLimited store q).length ≤ q.limit ∧
    (autocompleteMatches store q).length ≤ 50 * (parseSystemKeys q.systems).length := by
  constructor
  · exact (stableSortBy scoreBefore (autocompleteMatches store q)).length_take_le q.limit
  · unfold autocompleteMatches
    rw [List.length_flatMap]
    have hb : ∀ n ∈ ((parseSystemKeys q.systems).map
        (fun key => (perSystemResults store q key).length)), n ≤ 50 := by
      intro n hn
      obtain ⟨key, _, rfl⟩ := List.mem_map.mp hn
      exact perSystemResults_length_le store q key
    calc ((parseSystemKeys q.systems).map
          (fun key => (perSystemResults store q key).length)).sum
        ≤ ((parseSystemKeys q.systems).map
          (fun key => (perSystemResults store q key).length)).length • 50 :=
          List.sum_le_card_nsmul _ 50 hb
      _ = 50 * (parseSystemKeys q.systems).length := by
          rw [List.length_map]
          simp [Nat.mul_comm]

/-- A JS value stored by the translate parameter reduce: the code only
ever stores strings (valueCode/valueUri) or booleans (valueBoolean). -/
inductive JsVal where
  | str (s : String)
  | bool (b : Bool)
deriving DecidableEq, Repr

/-- JS truthiness of a possibly-undefined value. -/
def jsTruthy : Option JsVal → Bool
  | none => false
  | some (.str s) => !(s == "")
  | some (.bool b) => b

/-- One entry of the Parameters resource body of the translate call. -/
structure FhirParam where
  name : String
  valueCode : Option String
  valueUri : Option String
  valueBoolean : Option Bool
deriving DecidableEq, Repr

/-- The value picked for one parameter: valueCode, or-else valueUri,
or-else valueBoolean (JS or takes the first truthy operand, else the
last operand). -/
def paramValue (p : FhirParam) : Option JsVal :=
  let vc := p.valueCode.map JsVal.str
  let vu := p.valueUri.map JsVal.str
  let vb := p.valueBoolean.map JsVal.bool
  if jsTruthy vc then vc else if jsTruthy vu then vu else vb

/-- The reduce over the parameter array: later entries overwrite
earlier ones keyed by name. -/
def reduceParams (ps : List FhirParam) : String → Option JsVal :=
  ps.foldl (fun acc p => fun k => if k == p.name then paramValue p else acc k)
    (fun _ => none)

/-- Equality test of a JS value against a string column: a boolean
never matches. -/
def jsValEqStr (v : JsVal) (s : String) : Bool :=
  match v with
  | .str x => x == s
  | .bool _ => false

/-- JS string interpolation of a value. -/
def jsValToString : JsVal → String
  | .str s => s
  | .bool b => if b then "true" else "false"

/-- A FHIR coding triple. -/
structure Coding where
  system : String
  code : String
  display : Option String
deriving DecidableEq, Repr

/-- The observable outcome of the translate operation: a thrown
ValidationError, a Parameters response with result false plus a
message, or a Parameters response with result true, the source coding
and the list of matches. -/
inductive TranslateResponse where
  | invalidArgument (message : String)
  | failure (message : String)
  | success (source : Coding) (matchList : List Mapping)
deriving DecidableEq, Repr

/-- The findFirst lookup of a concept by code within the code system of
a given url, returning the concept with its owning code system. -/
def findConceptWithSystem (store : Store) (codeV systemV : JsVal) :
    Option (CodeSystem × Concept) :=
  ((store.codeSystems.filter (fun cs => jsValEqStr systemV cs.url)).flatMap
    (fun cs => cs.concepts.map (Prod.mk cs))).find?
    (fun pr => jsValEqStr codeV pr.2.code)

/-- The forward mapping query as invoked by the translate route with
raw JS parameter values: a boolean code or system matches no rows, a
falsy target spreads no target constraint, and a truthy boolean target
matches no concept map. -/
def findMappingsJs (maps : List ConceptMap) (codeV systemV : JsVal)
    (targetV : Option JsVal) : List Mapping :=
  match codeV, systemV with
  | .str c, .str s =>
    match targetV with
    | none => findMappingsForConcept maps c s none
    | some (.str t) => findMappingsForConcept maps c s (some t)
    | some (.bool b) => if b then [] else findMappingsForConcept maps c s none
  | _, _ => []

/-- The target-system label used in the no-mappings message. -/
def noTargetLabel (targetV : Option JsVal) : String :=
  match targetV with
  | none => "any target system"
  | some v => if jsTruthy (some v) then jsValToString v else "any target system"

/-- Embeds the body of the translate route after the required-parameter
guard. -/
def translateCore (store : Store) (codeV systemV : JsVal)
    (targetV : Option JsVal) : TranslateResponse :=
  match findConceptWithSystem store codeV systemV with
  | none =>
    .failure ("Code " ++ jsValToString codeV ++ " not found in system "
      ++ jsValToString systemV)
  | some (cs, sourceConcept) =>
    let mappings := findMappingsJs store.conceptMaps codeV systemV targetV
    if mappings.isEmpty then
      .failure ("No mappings found for code " ++ jsValToString codeV
        ++ " from " ++ jsValToString systemV ++ " to " ++ noTargetLabel targetV)
    else
      .success
        { system := cs.url, code := sourceConcept.code,
          display := sourceConcept.display }
        mappings

/-- Embeds the translate route: reduce the parameter array, check the
required-parameter guard, then run the translation; the parsed reverse
parameter is dead after parsing and does not appear in the body. -/
def translateHandler (store : Store) (ps : List FhirParam) : TranslateResponse :=
  let params := reduceParams ps
  let codeV := params "code"
  let systemV := params "system"
  let targetV := params "target"
  if !(jsTruthy codeV) || !(jsTruthy systemV) then
    .invalidArgument "code and system parameters are required"
  else
    match codeV, systemV with
    | some cv, some sv => translateCore store cv sv targetV
    | _, _ => .invalidArgument "code and system parameters are required"

/-- A reverse parameter entry as a client would send it. -/
def reverseParam (b : Bool) : FhirParam :=
  { name := "reverse", valueCode := none, valueUri := none, valueBoolean := some b }

lemma reduceParams_append_single (ps : List FhirParam) (p : FhirParam)
    (k : String) :
    reduceParams (ps ++ [p]) k =
      if k == p.name then paramValue p else reduceParams ps k := by
  unfold reduceParams
  rw [List.foldl_append]
  rfl

/-- C10: the translate response is unchanged when a reverse parameter
with any boolean value is appended to (and therefore overrides the
reverse slot of) the request: the handler parses reverse but never
reads it, so reverse true, false or absent all produce the same
response. -/
theorem translate_ignores_reverse (store : Store) (ps : List FhirParam)
    (b : Bool) :
    translateHandler store (ps ++ [reverseParam b]) = translateHandler store ps := by
  simp only [translateHandler, reduceParams_append_single, reverseParam]
  rw [if_neg (by decide : ¬ (("code" : String) == "reverse") = true),
    if_neg (by decide : ¬ (("system" : String) == "reverse") = true),
    if_neg (by decide : ¬ (("target" : String) == "reverse") = true)]

/-- Store for the translate counterexample: one concept, no concept
maps. -/
def storeKnownUnmapped : Store :=
  { codeSystems :=
      [{ url := "sysA", name := "A", title := none,
         concepts :=
           [{ code := "c1", display := some "Fever", definition := none,
              designations := [] }] }],
    conceptMaps := [] }

/-- C1 counterexample: the source code c1 exists in sysA, the forward
lookup is empty, and the translate operation answers with result false
(a failure message), not with result true and an empty match list as
the claim states. -/
theorem translate_known_unmapped_counterexample :
    (findConceptWithSystem storeKnownUnmapped (.str "c1") (.str "sysA")).isSome
        = true ∧
    findMappingsJs storeKnownUnmapped.conceptMaps (.str "c1") (.str "sysA") none
        = [] ∧
    translateCore storeKnownUnmapped (.str "c1") (.str "sysA") none =
      .failure "No mappings found for code c1 from sysA to any target system" := by
  refine ⟨rfl, rfl, rfl⟩

/-- C1 amended: when the source concept exists but the forward lookup
is empty, translate returns result false with the no-mappings message;
when the source code is unknown it returns result false with the
not-found message; and a result true response always carries a
non-empty match list. -/
theorem translate_result_false_cases (store : Store) (cv sv : JsVal)
    (tv : Option JsVal) :
    (∀ cs c, findConceptWithSystem store cv sv = some (cs, c) →
      findMappingsJs store.conceptMaps cv sv tv = [] →
      translateCore store cv sv tv =
        .failure ("No mappings found for code " ++ jsValToString cv
          ++ " from " ++ jsValToString sv ++ " to " ++ noTargetLabel tv)) ∧
    (findConceptWithSystem store cv sv = none →
      translateCore store cv sv tv =
        .failure ("Code " ++ jsValToString cv ++ " not found in system "
          ++ jsValToString sv)) ∧
    (∀ src ms, translateCore store cv sv tv = .success src ms → ms ≠ []) := by
  refine ⟨?_, ?_, ?_⟩
  · intro cs c hfind hmap
    unfold translateCore
    rw [hfind]
    simp [hmap]
  · intro h
    unfold translateCore
    rw [h]
  · intro src ms h
    unfold translateCore at h
    cases hf : findConceptWithSystem store cv sv with
    | none => rw [hf] at h; exact absurd h (by simp)
    | some pr =>
      rw [hf] at h
      obtain ⟨cs, c⟩ := pr
      dsimp only at h
      by_cases hm : (findMappingsJs store.conceptMaps cv sv tv).isEmpty = true
      · rw [if_pos hm] at h
        exact absurd h (by simp)
      · rw [if_neg hm] at h
        obtain ⟨-, rfl⟩ : src = _ ∧ ms = findMappingsJs store.conceptMaps cv sv tv := by
          cases h; exact ⟨rfl, rfl⟩
        intro hnil
        rw [hnil] at hm
        exact hm rfl

/-- Witness for the amended C1 theorem: both result-false cases and the
non-empty-success case discharged at concrete stores. -/
theorem translate_result_false_cases_witness :
    translateCore storeKnownUnmapped (.str "c1") (.str "sysA") none =
      .failure "No mappings found for code c1 from sysA to any target system" :=
  (translate_result_false_cases storeKnownUnmapped (.str "c1") (.str "sysA")
    none).1 _ _ rfl rfl

/-- C4 amended: the autocomplete guard rejects exactly the requests
whose search term is absent or shorter than two characters before any
trimming. -/
theorem autocomplete_guard_exact (store : Store) (search : Option String)
    (system : Option String) (limit : Nat) (incD incM : Bool)
    (systems : String) :
    (∃ e, autocomplete store search system limit incD incM systems
        = Except.error e) ↔
      (search = none ∨ ∃ s, search = some s ∧ s.length < 2) := by
  cases search with
  | none => simp [autocomplete]
  | some s =>
    by_cases h : s.length < 2
    · simp [autocomplete, h]
    · simp [autocomplete, h]

/-- C4 counterexample: a search term of two spaces trims to length
zero, yet the guard accepts it (the guard tests the untrimmed length),
so no InvalidArgument is raised. -/
theorem autocomplete_guard_counterexample :
    (jsTrim "  ".data).length < 2 ∧
      autocomplete { codeSystems := [], conceptMaps := [] } (some "  ") none 20
        true true "namaste,icd11-tm2,unani" = .ok [] := by
  exact ⟨by decide, rfl⟩

/-- Concept used to populate the C3 counterexample store. -/
def conceptAb : Concept :=
  { code := "ab", display := none, definition := none, designations := [] }

/-- Store for the C3 counterexample: two searched systems with 26
matching concepts each. -/
def storeManyMatches : Store :=
  { codeSystems :=
      [{ url := "https://ayush.gov.in/fhir/CodeSystem/namaste", name := "NAMASTE",
         title := none, concepts := List.replicate 26 conceptAb },
       { url := "https://ayush.gov.in/fhir/CodeSystem/unani", name := "UNANI",
         title := none, concepts := List.replicate 26 conceptAb }],
    conceptMaps := [] }

/-- Query for the C3 counterexample: limit 51. -/
def queryLimit51 : AutoQuery :=
  { search := "ab", system := none, limit := 51, includeDesignations := true,
    includeMappings := true, systems := "namaste,icd11-tm2,unani" }

/-- C3 counterexample: with limit 51 and two systems holding 26 matches
each, the route returns 51 results, exceeding min(limit, 50) = 50: the
50-cap is applied per system only, not to the merged list. -/
theorem autocomplete_limit_counterexample :
    min queryLimit51.limit 50 < (autocompleteLimited storeManyMatches queryLimit51).length := by
  have h : (autocompleteLimited storeManyMatches queryLimit51).length = 51 := by
    rfl
  rw [h]
  decide

/-- The canonical NAMASTE code system url. -/
def namasteUrl : String := "https://ayush.gov.in/fhir/CodeSystem/namaste"

/-- The ICD-11 system urls tried in order by the dual-code lookup. -/
def icd11Urls : List String :=
  ["http://id.who.int/icd/release/11/mms", "https://icd.who.int/browse11/l-m/en"]

/-- The findFirst lookup of a concept by code in the code system with
the given url. -/
def findConceptByUrl (store : Store) (url code : String) :
    Option (CodeSystem × Concept) :=
  match store.codeSystems.find? (fun cs => cs.url == url) with
  | none => none
  | some cs =>
    match cs.concepts.find? (fun c => c.code == code) with
    | none => none
    | some c => some (cs, c)

/-- One named entry of the dual-code-lookup Parameters response.  The
constructors are exactly the parameter shapes the route can push; the
route has no not-found entry of any kind. -/
inductive DualParam where
  | result (b : Bool)
  | namaste (coding : Coding) (definitionText : Option String)
      (designationText : Option String)
  | mappedIcd11 (mappings : List Mapping)
  | icd11 (coding : Coding) (definitionText : Option String)
  | mappedNamaste (mappings : List ReverseMapping)
deriving DecidableEq, Repr

/-- The conditional definition part of a slot (included only when
details are requested and the definition is truthy). -/
def definitionPart (includeDetails : Bool) (c : Concept) : Option String :=
  if includeDetails then
    match c.definition with
    | some d => if d == "" then none else some d
    | none => none
  else none

/-- The entries the namaste branch of the dual-code lookup pushes. -/
def namasteSlot (store : Store) (nc : String) (includeDetails : Bool) :
    List DualParam :=
  match findConceptByUrl store namasteUrl nc with
  | none => []
  | some (cs, c) =>
    let base := DualParam.namaste
      { system := cs.url, code := c.code, display := c.display }
      (definitionPart includeDetails c)
      (if includeDetails && !c.designations.isEmpty then
        some (String.intercalate "; "
          (c.designations.map (fun d => d.language ++ ": " ++ d.value)))
       else none)
    let mappings := findMappingsForConcept store.conceptMaps nc namasteUrl none
    [base] ++ (if mappings.isEmpty then [] else [DualParam.mappedIcd11 mappings])

/-- The entries the icd11 branch pushes: the systems are tried in order
and the loop breaks at the first system holding the code. -/
def icd11Slot (store : Store) (ic : String) (includeDetails : Bool) :
    List String → List DualParam
  | [] => []
  | url :: rest =>
    match findConceptByUrl store url ic with
    | none => icd11Slot store ic includeDetails rest
    | some (cs, c) =>
      [DualParam.icd11 { system := cs.url, code := c.code, display := c.display }
        (definitionPart includeDetails c)]
      ++ (let rms := findReverseMappingsForConcept store.conceptMaps ic url
          if rms.isEmpty then [] else [DualParam.mappedNamaste rms])

/-- Embeds the dual-code-lookup route: guard, per-code slots, then the
result flag (computed from the entry count before it is prepended). -/
def dualCodeLookup (store : Store) (namasteCode icd11Code : Option String)
    (includeDetails : Bool) : Except String (List DualParam) :=
  if !(jsTruthyStr namasteCode) && !(jsTruthyStr icd11Code) then
    .error "Either namasteCode or icd11Code parameter is required"
  else
    let namasteEntries :=
      match namasteCode with
      | some nc => if nc == "" then [] else namasteSlot store nc includeDetails
      | none => []
    let icd11Entries :=
      match icd11Code with
      | some ic => if ic == "" then [] else icd11Slot store ic includeDetails icd11Urls
      | none => []
    let entries := namasteEntries ++ icd11Entries
    .ok (DualParam.result (entries.length > 1) :: entries)

/-- True for the response entries that concern the icd11 slot. -/
def mentionsIcd11Slot : DualParam → Bool
  | .icd11 _ _ => true
  | .mappedNamaste _ => true
  | _ => false

/-- Store for the C2 counterexample and witness: one namaste concept,
nothing else. -/
def storeNamasteOnly : Store :=
  { codeSystems :=
      [{ url := "https://ayush.gov.in/fhir/CodeSystem/namaste", name := "NAMASTE",
         title := none,
         concepts :=
           [{ code := "N1", display := some "Fever", definition := none,
              designations := [] }] }],
    conceptMaps := [] }

/-- C2 counterexample: with a known namaste code and an unknown icd11
code, the response contains only the result flag and the namaste entry;
no entry of any kind refers to the icd11 slot, so there is no explicit
not-found status for it (and the result flag is even false). -/
theorem dual_lookup_no_notfound_counterexample :
    dualCodeLookup storeNamasteOnly (some "N1") (some "Z9") true =
      .ok [DualParam.result false,
           DualParam.namaste
             { system := "https://ayush.gov.in/fhir/CodeSystem/namaste",
               code := "N1", display := some "Fever" } none none] ∧
    ∀ p ∈ [DualParam.result false,
           DualParam.namaste
             { system := "https://ayush.gov.in/fhir/CodeSystem/namaste",
               code := "N1", display := some "Fever" } none none],
      mentionsIcd11Slot p = false := by
  refine ⟨rfl, by decide⟩

lemma icd11Slot_unknown (store : Store) (ic : String) (d : Bool)
    (urls : List String)
    (h : ∀ u ∈ urls, findConceptByUrl store u ic = none) :
    icd11Slot store ic d urls = [] := by
  induction urls with
  | nil => rfl
  | cons u rest ih =>
    rw [icd11Slot, h u (List.mem_cons_self u rest)]
    exact ih (fun v hv => h v (List.mem_cons_of_mem u hv))

/-- True for the response entries that concern the namaste slot. -/
def mentionsNamasteSlot : DualParam → Bool
  | .namaste _ _ _ => true
  | .mappedIcd11 _ => true
  | _ => false

lemma icd11Slot_ne_nil (store : Store) (ic : String) (d : Bool)
    (urls : List String)
    (h : ∃ u ∈ urls, (findConceptByUrl store u ic).isSome = true) :
    icd11Slot store ic d urls ≠ [] := by
  induction urls with
  | nil => simp at h
  | cons u rest ih =>
    rw [icd11Slot]
    cases hf : findConceptByUrl store u ic with
    | none =>
      apply ih
      rcases h with ⟨v, hv, hsome⟩
      rcases List.mem_cons.mp hv with rfl | hvr
      · rw [hf] at hsome
        exact absurd hsome (by simp)
      · exact ⟨v, hvr, hsome⟩
    | some pr =>
      obtain ⟨cs, c⟩ := pr
      simp

lemma icd11Slot_no_namaste (store : Store) (ic : String) (d : Bool)
    (urls : List String) :
    ∀ p ∈ icd11Slot store ic d urls, mentionsNamasteSlot p = false := by
  induction urls with
  | nil => intro p hp; exact absurd hp (List.not_mem_nil p)
  | cons u rest ih =>
    intro p hp
    rw [icd11Slot] at hp
    cases hf : findConceptByUrl store u ic with
    | none =>
      rw [hf] at hp
      exact ih p hp
    | some pr =>
      obtain ⟨cs, c⟩ := pr
      rw [hf] at hp
      dsimp only at hp
      rcases List.mem_append.mp hp with hb | hm
      · obtain rfl : p = _ := List.mem_singleton.mp hb
        rfl
      · by_cases hr :
          (findReverseMappingsForConcept store.conceptMaps ic u).isEmpty = true
        · rw [if_pos hr] at hm
          exact absurd hm (List.not_mem_nil p)
        · rw [if_neg hr] at hm
          obtain rfl : p = _ := List.mem_singleton.mp hm
          rfl

/-- C2 amended: with both inputs falsy (absent or empty) the call
fails with InvalidArgument; with exactly one supplied code unknown, in
either direction, the unknown slot contributes no entries at all
(there is no explicit not-found marker), while the other code is still
resolved and reported and the call succeeds. -/
theorem dual_lookup_guard_and_omitted_slot (store : Store) (nc ic : String)
    (d : Bool) (cs : CodeSystem) (c : Concept) :
    (∀ a b : Option String, jsTruthyStr a = false → jsTruthyStr b = false →
      dualCodeLookup store a b d =
        .error "Either namasteCode or icd11Code parameter is required") ∧
    (nc ≠ "" → ic ≠ "" →
      findConceptByUrl store namasteUrl nc = some (cs, c) →
      (∀ u ∈ icd11Urls, findConceptByUrl store u ic = none) →
      dualCodeLookup store (some nc) (some ic) d =
          .ok (DualParam.result ((namasteSlot store nc d).length > 1)
            :: namasteSlot store nc d)
        ∧ namasteSlot store nc d ≠ []
        ∧ ∀ p ∈ namasteSlot store nc d, mentionsIcd11Slot p = false) ∧
    (nc ≠ "" → ic ≠ "" →
      findConceptByUrl store namasteUrl nc = none →
      (∃ u ∈ icd11Urls, (findConceptByUrl store u ic).isSome = true) →
      dualCodeLookup store (some nc) (some ic) d =
          .ok (DualParam.result ((icd11Slot store ic d icd11Urls).length > 1)
            :: icd11Slot store ic d icd11Urls)
        ∧ icd11Slot store ic d icd11Urls ≠ []
        ∧ ∀ p ∈ icd11Slot store ic d icd11Urls, mentionsNamasteSlot p = false) := by
  refine ⟨?_, ?_, ?_⟩
  · intro a b ha hb
    simp [dualCodeLookup, ha, hb]
  · intro hnc hic hfound hunknown
    have hncb : (nc == "") = false := by
      rw [beq_eq_false_iff_ne]; exact hnc
    have hicb : (ic == "") = false := by
      rw [beq_eq_false_iff_ne]; exact hic
    refine ⟨?_, ?_, ?_⟩
    · simp [dualCodeLookup, jsTruthyStr, hncb, hicb,
        icd11Slot_unknown store ic d icd11Urls hunknown]
    · unfold namasteSlot
      rw [hfound]
      simp
    · intro p hp
      unfold namasteSlot at hp
      rw [hfound] at hp
      dsimp only at hp
      rcases List.mem_append.mp hp with hb | hm
      · obtain rfl : p = _ := List.mem_singleton.mp hb
        rfl
      · by_cases hmap :
          (findMappingsForConcept store.conceptMaps nc namasteUrl none).isEmpty = true
        · rw [if_pos hmap] at hm
          exact absurd hm (List.not_mem_nil p)
        · rw [if_neg hmap] at hm
          obtain rfl : p = _ := List.mem_singleton.mp hm
          rfl
  · intro hnc hic hnone hfound
    have hncb : (nc == "") = false := by
      rw [beq_eq_false_iff_ne]; exact hnc
    have hicb : (ic == "") = false := by
      rw [beq_eq_false_iff_ne]; exact hic
    have hnam : namasteSlot store nc d = [] := by
      unfold namasteSlot
      rw [hnone]
    refine ⟨?_, icd11Slot_ne_nil store ic d icd11Urls hfound,
      icd11Slot_no_namaste store ic d icd11Urls⟩
    simp [dualCodeLookup, jsTruthyStr, hncb, hicb, hnam]

/-- Store for the symmetric direction of the C2 witness: one icd11
concept, nothing else. -/
def storeIcd11Only : Store :=
  { codeSystems :=
      [{ url := "http://id.who.int/icd/release/11/mms", name := "ICD11TM2",
         title := none,
         concepts :=
           [{ code := "TM26.0", display := some "Fever disorder",
              definition := none, designations := [] }] }],
    conceptMaps := [] }

/-- Witness for the amended C2 theorem: the guard at falsy inputs, the
icd11-unknown direction and the namaste-unknown direction, each at a
concrete store. -/
theorem dual_lookup_guard_and_omitted_slot_witness :
    (dualCodeLookup storeNamasteOnly (some "") none true =
      .error "Either namasteCode or icd11Code parameter is required")
    ∧
    (dualCodeLookup storeNamasteOnly (some "N1") (some "Z9") true =
        .ok (DualParam.result ((namasteSlot storeNamasteOnly "N1" true).length > 1)
          :: namasteSlot storeNamasteOnly "N1" true)
      ∧ namasteSlot storeNamasteOnly "N1" true ≠ []
      ∧ ∀ p ∈ namasteSlot storeNamasteOnly "N1" true, mentionsIcd11Slot p = false)
    ∧
    (dualCodeLookup storeIcd11Only (some "N1") (some "TM26.0") true =
        .ok (DualParam.result ((icd11Slot storeIcd11Only "TM26.0" true icd11Urls).length > 1)
          :: icd11Slot storeIcd11Only "TM26.0" true icd11Urls)
      ∧ icd11Slot storeIcd11Only "TM26.0" true icd11Urls ≠ []
      ∧ ∀ p ∈ icd11Slot storeIcd11Only "TM26.0" true icd11Urls,
          mentionsNamasteSlot p = false) :=
  ⟨(dual_lookup_guard_and_omitted_slot storeNamasteOnly "x" "x" true
      { url := "", name := "", title := none, concepts := [] }
      { code := "", display := none, definition := none, designations := [] }).1
      (some "") none (by decide) (by decide),
   (dual_lookup_guard_and_omitted_slot storeNamasteOnly "N1" "Z9" true _ _).2.1
      (by decide) (by decide) rfl (by decide),
   (dual_lookup_guard_and_omitted_slot storeIcd11Only "N1" "TM26.0" true
      { url := "", name := "", title := none, concepts := [] }
      { code := "", display := none, definition := none, designations := [] }).2.2
      (by decide) (by decide) rfl
      ⟨"http://id.who.int/icd/release/11/mms", by decide, by decide⟩⟩

end FhirTerm
